import Mathlib

/-
  Verification of the deploy repository's version model and line-injection
  engine against its natural-language specification.

  Shallow embedding conventions:
  * Python strings are modelled as `List Char` (with `String` wrappers where
    convenient); Python ints are `Int` (arbitrary precision, no overflow).
  * Raising an exception is modelled with `Except`; a method that mutates its
    receiver and may raise is modelled as returning the final state of the
    receiver together with the `Except` result, so that mutation performed
    before a raise stays observable.
  * The class hierarchy _Version / _VersionPatch / _VersionBuildDC
    (src/deploy/version.py) is modelled as a closed datatype: `Version.__new__`
    only ever builds a plain shape, a patch shape, or a build decorator around
    one of those two.
-/

namespace Deploy

/-! ## Version data model (src/deploy/version.py) -/

/-- The `Bump` enum (version.py lines 31-34). -/
inductive BumpKind
  | major
  | minor
  | patch
deriving DecidableEq, Repr

/-- The two undecorated shapes: `_Version(major, minor)` and
`_VersionPatch(major, minor, patch)`. -/
inductive VCore
  | plain (major minor : Int)
  | patched (major minor patch : Int)
deriving DecidableEq, Repr

/-- A parsed version object: either a bare core shape or a core shape wrapped
in the `_VersionBuildDC` decorator with a build tag. -/
inductive VObj
  | core (c : VCore)
  | buildDC (c : VCore) (tag : String)
deriving DecidableEq, Repr

namespace VCore

/-- `major` property of a core shape. -/
def majorOf : VCore → Int
  | .plain a _ => a
  | .patched a _ _ => a

/-- `minor` property of a core shape. -/
def minorOf : VCore → Int
  | .plain _ b => b
  | .patched _ b _ => b

/-- `patch` property: `_Version.patch` returns 0 (version.py lines 168-170),
`_VersionPatch.patch` returns the stored field (lines 209-211). -/
def patchOf : VCore → Int
  | .plain _ _ => 0
  | .patched _ _ p => p

/-- `_Version.__str__` / `_VersionPatch.__str__` (version.py lines 190-191
and 234-235). -/
def render : VCore → String
  | .plain a b => "v" ++ toString a ++ "." ++ toString b
  | .patched a b p => "v" ++ toString a ++ "." ++ toString b ++ "." ++ toString p

end VCore

namespace VObj

/-- `major` property; `_VersionBuildDC.major` delegates to the decorated
object (version.py lines 249-251). -/
def majorOf : VObj → Int
  | .core c => c.majorOf
  | .buildDC c _ => c.majorOf

/-- `minor` property, with decorator delegation (version.py lines 253-255). -/
def minorOf : VObj → Int
  | .core c => c.minorOf
  | .buildDC c _ => c.minorOf

/-- `patch` property, with decorator delegation (version.py lines 257-259). -/
def patchOf : VObj → Int
  | .core c => c.patchOf
  | .buildDC c _ => c.patchOf

/-- `build` property: `None` on bare shapes (lines 172-174), the stored tag on
the decorator (lines 261-263). -/
def buildOf : VObj → Option String
  | .core _ => none
  | .buildDC _ t => some t

/-- `__str__`: the decorator renders the decorated object followed by
`-<tag>` (version.py lines 275-276). -/
def render : VObj → String
  | .core c => c.render
  | .buildDC c t => c.render ++ "-" ++ t

/-- `isinstance(other, _VersionPatch)`: true exactly for the bare patch shape;
`_VersionBuildDC` subclasses `_Version`, not `_VersionPatch`. -/
def isPatchInstance : VObj → Bool
  | .core (.patched _ _ _) => true
  | _ => false

end VObj

/-- `_Version.__eq__` (version.py lines 176-179): compares the `major` and
`minor` properties only.  In the closed universe of parsed versions the
`isinstance(other, _Version)` guard always holds, so `NotImplemented` never
escapes. -/
def eqVersionM (self other : VObj) : Bool :=
  self.majorOf == other.majorOf && self.minorOf == other.minorOf

/-- `_VersionPatch.__eq__` (version.py lines 213-222), called with a patch
shape as `self`: on equal major/minor it compares `self.patch` against
`other.patch` when `other` is itself a `_VersionPatch` instance, and against
`0` otherwise (this `else` branch also fires when `other` is a build
decorator). -/
def eqPatchM (self other : VObj) : Bool :=
  if eqVersionM self other then
    if other.isPatchInstance then self.patchOf == other.patchOf
    else self.patchOf == 0
  else false

/-- Python `c == d` between two bare (undecorated) instances.  When exactly
one operand is a `_VersionPatch`, Python tries the subclass's `__eq__` first
(reflected-operand priority for proper subclasses). -/
def eqCoreCore (c d : VCore) : Bool :=
  match c, d with
  | .plain _ _, .plain _ _ => eqVersionM (.core c) (.core d)
  | .plain _ _, .patched _ _ _ => eqPatchM (.core d) (.core c)
  | .patched _ _ _, _ => eqPatchM (.core c) (.core d)

/-- `_VersionBuildDC.__eq__` (version.py lines 265-268) with decorated core
`c`: compares the decorated objects when `other` is also a decorator, and the
decorated object against `other` itself otherwise. -/
def eqBuildM (c : VCore) (other : VObj) : Bool :=
  match other with
  | .buildDC d _ => eqCoreCore c d
  | .core d => eqCoreCore c d

/-- Python `u == v` over parsed version objects, with Python's dispatch rule:
if the right operand's class is a proper subclass of the left operand's class
its `__eq__` runs first; otherwise the left operand's `__eq__` runs first.
`_VersionPatch` and `_VersionBuildDC` are sibling subclasses of `_Version`. -/
def pyEq (u v : VObj) : Bool :=
  match u, v with
  | .core (.plain _ _), .core (.plain _ _) => eqVersionM u v
  | .core (.plain _ _), .core (.patched _ _ _) => eqPatchM v u
  | .core (.plain _ _), .buildDC d _ => eqBuildM d u
  | .core (.patched _ _ _), _ => eqPatchM u v
  | .buildDC c _, _ => eqBuildM c v

/-- A Python exception, coarsely classified. -/
inductive PyErr
  | valueError
  | fileNotFound
  | runtimeError
  | indexError
deriving DecidableEq, Repr

/-- `_validate_bump_increase` (version.py lines 48-50): raises `ValueError`
when the increase is below 1. -/
def validateBumpIncrease (increase : Int) : Except PyErr Unit :=
  if increase < 1 then .error .valueError else .ok ()

/-- `_Version.bump` (version.py lines 144-158) on the plain shape: validate
first, then `MAJOR` adds and resets minor, `MINOR` adds; `PATCH` falls through
the `match` with no effect.  Returns the final state together with the
rendered string (or the raised error). -/
def bumpPlain (a b : Int) (k : BumpKind) (inc : Int) : VCore × Except PyErr String :=
  match validateBumpIncrease inc with
  | .error e => (.plain a b, .error e)
  | .ok _ =>
    let c : VCore :=
      match k with
      | .major => .plain (a + inc) 0
      | .minor => .plain a (b + inc)
      | .patch => .plain a b
    (c, .ok c.render)

/-- `_VersionPatch.bump` (version.py lines 200-207): for `PATCH` it validates
then adds to the patch field; for any other kind it zeroes the patch field
BEFORE delegating to `_Version.bump`, whose validation may then raise with the
patch already reset. -/
def bumpPatched (a b p : Int) (k : BumpKind) (inc : Int) : VCore × Except PyErr String :=
  if k = .patch then
    match validateBumpIncrease inc with
    | .error e => (.patched a b p, .error e)
    | .ok _ => (.patched a b (p + inc), .ok (VCore.render (.patched a b (p + inc))))
  else
    match validateBumpIncrease inc with
    | .error e => (.patched a b 0, .error e)
    | .ok _ =>
      let c : VCore :=
        match k with
        | .major => .patched (a + inc) 0 0
        | .minor => .patched a (b + inc) 0
        | .patch => .patched a b 0
      (c, .ok c.render)

/-- `bump` on a bare core shape, dispatching to the class's method. -/
def bumpCore (c : VCore) (k : BumpKind) (inc : Int) : VCore × Except PyErr String :=
  match c with
  | .plain a b => bumpPlain a b k inc
  | .patched a b p => bumpPatched a b p k inc

/-- `bump` on a parsed version object.  `_VersionBuildDC.bump` (version.py
lines 245-247) forwards to the decorated object and then renders itself; an
error raised by the decorated bump propagates, with the decorated object's
partial mutation retained. -/
def bumpV (v : VObj) (k : BumpKind) (inc : Int) : VObj × Except PyErr String :=
  match v with
  | .core c =>
    let (c', r) := bumpCore c k inc
    (.core c', r)
  | .buildDC c t =>
    let (c', r) := bumpCore c k inc
    match r with
    | .error e => (.buildDC c' t, .error e)
    | .ok _ => (.buildDC c' t, .ok (VObj.render (.buildDC c' t)))

/-! ## Parsing (`Version.__new__`, version.py lines 54-76)

`Version.__new__` applies three `re.match` calls:
  * `.*?(\d+)\.(\d+).*`          - major/minor extraction,
  * `.*?\d+\.\d+\.(\d+).*`       - optional patch extraction,
  * `.*\d+\.\d+(\.\d+)?-(.+)`    - optional build-tag extraction.
Each regex is modelled by an executable scanner implementing exactly the
backtracking semantics of the pattern on the given text:
  * a lazy `.*?` lead-in means the earliest start position wins, and the dot
    cannot cross a newline;
  * a greedy `.*` lead-in means the latest feasible start position wins;
  * `\d+` is a maximal digit run (backtracking it shorter can never help here,
    because a shorter run is still followed by a digit, never by the required
    punctuation);
  * the trailing `(.+)` captures the remainder of the text up to a newline and
    must be non-empty.
Digit groups are converted with Python `int`, so leading zeros vanish. -/

/-- A run of digits at the head of the text together with the rest
(the behaviour of a greedy `\d+` followed by a non-digit requirement). -/
def digitSpan (l : List Char) : List Char × List Char :=
  (l.takeWhile Char.isDigit, l.dropWhile Char.isDigit)

/-- Python `int` on a string of decimal digits. -/
def intOfDigits (ds : List Char) : Int :=
  ds.foldl (fun n c => 10 * n + (Int.ofNat c.toNat - 48)) 0

/-- Try `(\d+)\.(\d+)` anchored at the head of `l`, returning the two digit
groups. -/
def tryMM (l : List Char) : Option (List Char × List Char) :=
  let (d1, r1) := digitSpan l
  if d1 = [] then none
  else
    match r1 with
    | c1 :: r2 =>
      if c1 = '.' then
        let d2 := r2.takeWhile Char.isDigit
        if d2 = [] then none else some (d1, d2)
      else none
    | [] => none

/-- `match(r".*?(\d+)\.(\d+).*", s)`: earliest start position wins; the lazy
dot-star cannot step over a newline. -/
def mmScan : List Char → Option (List Char × List Char)
  | [] => none
  | c :: cs =>
    match tryMM (c :: cs) with
    | some r => some r
    | none => if c = '\n' then none else mmScan cs

/-- Try `\d+\.\d+\.(\d+)` anchored at the head of `l`, returning the third
digit group. -/
def tryPatch (l : List Char) : Option (List Char) :=
  let (d1, r1) := digitSpan l
  if d1 = [] then none
  else
    match r1 with
    | c1 :: r2 =>
      if c1 = '.' then
        let (d2, r3) := digitSpan r2
        if d2 = [] then none
        else
          match r3 with
          | c2 :: r4 =>
            if c2 = '.' then
              let d3 := r4.takeWhile Char.isDigit
              if d3 = [] then none else some d3
            else none
          | [] => none
      else none
    | [] => none

/-- `match(r".*?\d+\.\d+\.(\d+).*", s)`: earliest start position wins. -/
def patchScan : List Char → Option (List Char)
  | [] => none
  | c :: cs =>
    match tryPatch (c :: cs) with
    | some r => some r
    | none => if c = '\n' then none else patchScan cs

/-- Try `\d+\.\d+(\.\d+)?-(.+)` anchored at the head of `l`, returning the
build tag captured by `(.+)` (the remainder of the text up to a newline,
required non-empty).  The optional `(\.\d+)` group is taken greedily; if the
following `-` then fails, the group-absent alternative necessarily fails as
well (the next character is the dot), so no further backtracking arises. -/
def tryBuild (l : List Char) : Option (List Char) :=
  let (d1, r1) := digitSpan l
  if d1 = [] then none
  else
    match r1 with
    | c1 :: r2 =>
      if c1 = '.' then
        let (d2, r3) := digitSpan r2
        if d2 = [] then none
        else
          let r4 :=
            match r3 with
            | c2 :: r3' =>
              if c2 = '.' then
                let (d3, r3'') := digitSpan r3'
                if d3 = [] then r3 else r3''
              else r3
            | [] => r3
          match r4 with
          | c3 :: rest =>
            if c3 = '-' then
              let tag := rest.takeWhile (fun c => c ≠ '\n')
              if tag = [] then none else some tag
            else none
          | [] => none
      else none
    | [] => none

/-- `match(r".*\d+\.\d+(\.\d+)?-(.+)", s)`: the greedy dot-star prefers the
latest feasible start position, and cannot step over a newline. -/
def buildScan : List Char → Option (List Char)
  | [] => none
  | c :: cs =>
    match (if c = '\n' then none else buildScan cs) with
    | some r => some r
    | none => tryBuild (c :: cs)

/-- `Version.__new__` (version.py lines 54-76): requires a `major.minor` digit
pair somewhere in the text (else `ValueError`); adds the patch shape when a
`major.minor.patch` triple is found; wraps the result in the build decorator
when the build regex matches, using its second capture group as the tag. -/
def parseVersion (s : List Char) : Except PyErr VObj :=
  match mmScan s with
  | none => .error .valueError
  | some (d1, d2) =>
    let core : VCore :=
      match patchScan s with
      | some d3 => .patched (intOfDigits d1) (intOfDigits d2) (intOfDigits d3)
      | none => .plain (intOfDigits d1) (intOfDigits d2)
    match buildScan s with
    | some tag => .ok (.buildDC core (String.mk tag))
    | none => .ok (.core core)

/-- Parse from a `String`. -/
def parseVersionS (s : String) : Except PyErr VObj :=
  parseVersion s.data

/-! ## VersionSerializer.loadable (version.py lines 97-106, 125-135)

The filesystem is abstracted to the four facts the checks consult.  The
`except FileNotFoundError | RuntimeError` clause is modelled as catching both
exception kinds (note for the record: on CPython versions before 3.14 a PEP
604 union in an `except` clause raises `TypeError` when consulted, which would
only make `loadable` raise in even more situations). -/

/-- The filesystem facts consulted by the serializer's checks. -/
structure FsView where
  dirExists : Bool
  dirIsDir : Bool
  fileExists : Bool
  fileIsFile : Bool
deriving DecidableEq, Repr

/-- `VersionSerializer.__check_valid_dir` (version.py lines 125-129). -/
def checkValidDir (fs : FsView) : Except PyErr Unit :=
  if !fs.dirExists then .error .fileNotFound
  else if !fs.dirIsDir then .error .runtimeError
  else .ok ()

/-- `VersionSerializer.__check_valid_file` (version.py lines 131-135). -/
def checkValidFile (fs : FsView) : Except PyErr Unit :=
  if !fs.fileExists then .error .fileNotFound
  else if !fs.fileIsFile then .error .runtimeError
  else .ok ()

/-- `VersionSerializer.loadable` (version.py lines 97-106): the directory
check runs OUTSIDE the try block, so its exceptions propagate to the caller;
only the file check is guarded. -/
def loadable (fs : FsView) : Except PyErr Bool :=
  match checkValidDir fs with
  | .error e => .error e
  | .ok _ =>
    match checkValidFile fs with
    | .ok _ => .ok true
    | .error _ => .ok false

/-! ## LineInjector (src/injector/line_injector.py)

`inject` reads all lines, runs `__parse_file` over the in-memory buffer, and
only on a fully successful pass truncates and rewrites the file.  The file
content is a `List String`; the strategy's `_substitute` is a parameter. -/

/-- Substring containment on character lists: some suffix of `l` starts with
`m`. -/
def listContainsSub (m : List Char) : List Char → Bool
  | [] => m.isPrefixOf []
  | c :: cs => m.isPrefixOf (c :: cs) || listContainsSub m cs

/-- Python `marker in line` - substring containment. -/
def containsSub (marker line : String) : Bool :=
  listContainsSub marker.data line.data

/-- An error escaping `LineInjector.inject`: the `RuntimeError` raised when no
marker was found, or the strategy exception that aborted the pass. -/
inductive InjectErr (E : Type)
  | markerNotFound
  | strategyFailed (e : E)
deriving DecidableEq, Repr

/-- `LineInjector.__parse_file` (line_injector.py lines 51-60): walk the
buffer with a one-line lookbehind; when the previous line contains the marker,
substitute the current line and skip it as a marker candidate ("skip an extra
line").  Returns the updated buffer and the `changed` flag; a strategy error
aborts immediately. -/
def parseFileGo (subst : String → Except E String) (marker : String) :
    List String → Except E (List String × Bool)
  | [] => .ok ([], false)
  | [x] => .ok ([x], false)
  | x :: y :: rest =>
    if containsSub marker x then
      match subst y with
      | .error e => .error e
      | .ok y' =>
        match parseFileGo subst marker rest with
        | .error e => .error e
        | .ok (rest', _) => .ok (x :: y' :: rest', true)
    else
      match parseFileGo subst marker (y :: rest) with
      | .error e => .error e
      | .ok (out, c) => .ok (x :: out, c)

/-- `LineInjector.inject` (line_injector.py lines 62-80) on the in-memory
buffer: raise `MarkerNotFound` when the pass substituted nothing, propagate a
strategy error, and otherwise produce the rewritten buffer. -/
def injectBuffer (subst : String → Except E String) (marker : String)
    (lines : List String) : Except (InjectErr E) (List String) :=
  match parseFileGo subst marker lines with
  | .error e => .error (.strategyFailed e)
  | .ok (_, false) => .error .markerNotFound
  | .ok (out, true) => .ok out

/-- The observable effect of `inject` on the file: the file's new content
together with the raised error, if any.  The source writes the buffer back
(seek/truncate/writelines) only after `__parse_file` returned `True`, so on
any error the content on disk is the original one. -/
def injectFile (subst : String → Except E String) (marker : String)
    (content : List String) : List String × Option (InjectErr E) :=
  match injectBuffer subst marker content with
  | .ok out => (out, none)
  | .error e => (content, some e)

/-! ## VersionInjector (src/injector/version_injector.py)

The four recognition regexes share the shape
`(.*?)v\d+\.\d+(\.\d+)?(-[a-zA-Z0-9]+)?(.*)` with the patch and build parts
required or forbidden per pattern.  `(.*?)` is a lazy lead-in (earliest start
wins, cannot cross a newline); the final `(.*)` greedily captures the rest of
the line up to a newline. -/

/-- `[a-zA-Z0-9]`. -/
def isAsciiAlnum (c : Char) : Bool :=
  (('a' ≤ c && c ≤ 'z') || ('A' ≤ c && c ≤ 'Z') || ('0' ≤ c && c ≤ '9'))

/-- Try `v\d+\.\d+` plus the required patch/build parts, anchored at the head;
returns the text remaining after the matched token. -/
def tryVToken (needPatch needBuild : Bool) (l : List Char) : Option (List Char) :=
  match l with
  | c0 :: r0 =>
    if c0 = 'v' then
      let (d1, r1) := digitSpan r0
      if d1 = [] then none
      else
        match r1 with
        | c1 :: r2 =>
          if c1 = '.' then
            let (d2, r3) := digitSpan r2
            if d2 = [] then none
            else
              let afterPatch : Option (List Char) :=
                if needPatch then
                  match r3 with
                  | c2 :: r4 =>
                    if c2 = '.' then
                      let (d3, r5) := digitSpan r4
                      if d3 = [] then none else some r5
                    else none
                  | [] => none
                else some r3
              match afterPatch with
              | none => none
              | some r6 =>
                if needBuild then
                  match r6 with
                  | c3 :: r7 =>
                    if c3 = '-' then
                      let tag := r7.takeWhile isAsciiAlnum
                      if tag = [] then none else some (r7.dropWhile isAsciiAlnum)
                    else none
                  | [] => none
                else some r6
          else none
        | [] => none
    else none
  | [] => none

/-- One of the four `__VERSION_STRING_PATTERNS` applied with `re.match`:
scan for the earliest start position whose tail matches the token, returning
`(group 1, group 2)` - the consumed lead-in and the rest of the line up to a
newline. -/
def scanVToken (needPatch needBuild : Bool) :
    List Char → List Char → Option (List Char × List Char)
  | _, [] => none
  | acc, c :: cs =>
    match tryVToken needPatch needBuild (c :: cs) with
    | some rest => some (acc.reverse, rest.takeWhile (fun x => x ≠ '\n'))
    | none => if c = '\n' then none else scanVToken needPatch needBuild (c :: acc) cs

/-- `VersionInjector._substitute` (version_injector.py lines 45-50): try the
four patterns in order - (patch+build), (build only), (patch only), (bare) -
and on the first match return `group(1) + str(version) + group(2)`; raise
`RuntimeError` when no pattern matches. -/
def versionSubstitute (ver : String) (line : String) : Except PyErr String :=
  match scanVToken true true [] line.data with
  | some (g1, g2) => .ok (String.mk (g1 ++ ver.data ++ g2))
  | none =>
    match scanVToken false true [] line.data with
    | some (g1, g2) => .ok (String.mk (g1 ++ ver.data ++ g2))
    | none =>
      match scanVToken true false [] line.data with
      | some (g1, g2) => .ok (String.mk (g1 ++ ver.data ++ g2))
      | none =>
        match scanVToken false false [] line.data with
        | some (g1, g2) => .ok (String.mk (g1 ++ ver.data ++ g2))
        | none => .error .runtimeError

/-! ## DateInjector / _DateParser (src/injector/date_injector.py)

`_DateParser.__init__` splits the line into maximal runs of the four
protected control characters (tab, CR, LF, form feed) and maximal runs of
everything else - the results of `re.split` on `[^\n\t\r\f]+` and on
`[\n\t\r\f]+` with empty pieces discarded.  `dateutil.parser.parse` is a
third-party recognizer; it is modelled as an abstract parameter returning the
skipped (non-date) fragments on success, per its `fuzzy_with_tokens`
contract. -/

/-- `_DateParser.__PROTECTED_CHARACTERS` = tab, CR, LF, form feed. -/
def isCtrl (c : Char) : Bool :=
  c = '\n' || c = '\t' || c = '\r' || c = '\x0c'

/-- Maximal runs of characters sharing their control-ness, in order.  The
control runs among them are exactly `__prot_tokens` and the content runs
exactly `__std_tokens`. -/
def runsOf : List Char → List (List Char)
  | [] => []
  | c :: cs =>
    (c :: cs.takeWhile (fun d => isCtrl d == isCtrl c))
      :: runsOf (cs.dropWhile (fun d => isCtrl d == isCtrl c))
termination_by l => l.length
decreasing_by
  simp only [List.length_cons]
  exact Nat.lt_succ_of_le (List.IsSuffix.length_le (List.dropWhile_suffix _))

/-- Whether a run is a control run (decided by its first character). -/
def runIsCtrl : List Char → Bool
  | [] => false
  | c :: _ => isCtrl c

/-- `__prot_tokens`: the maximal control-character runs of the line. -/
def protTokens (l : List Char) : List (List Char) :=
  (runsOf l).filter runIsCtrl

/-- `__std_tokens`: the maximal content runs of the line. -/
def stdTokens (l : List Char) : List (List Char) :=
  (runsOf l).filter (fun r => !(runIsCtrl r))

/-- `_DateParser.__zipper_merge` (date_injector.py lines 129-140): alternate
elements of the two lists while both last, then append the leftovers. -/
def zipperMerge {α : Type} : List α → List α → List α
  | [], b => b
  | a, [] => a
  | x :: xs, y :: ys => x :: y :: zipperMerge xs ys

/-- `_DateParser.rebuild` (date_injector.py lines 86-95) parameterized by the
token lists in play: the longer sequence leads the merge; on equal lengths the
sequence leading is decided by whether the original content starts with
`prot[0]` - an access that raises `IndexError` when there are no control
runs and equally many (i.e. zero) content runs. -/
def rebuildWith (content : List Char) (protT stdT : List (List Char)) :
    Except PyErr (List Char) :=
  if protT.length > stdT.length then .ok (zipperMerge protT stdT).flatten
  else if stdT.length > protT.length then .ok (zipperMerge stdT protT).flatten
  else
    match protT with
    | [] => .error .indexError
    | p0 :: _ =>
      if p0.isPrefixOf content then .ok (zipperMerge protT stdT).flatten
      else .ok (zipperMerge stdT protT).flatten

/-- `rebuild` on a freshly tokenized line with no substitution performed. -/
def rebuildLine (l : List Char) : Except PyErr (List Char) :=
  rebuildWith l (protTokens l) (stdTokens l)

/-- Python `\s` (ASCII whitespace as produced inside these lines). -/
def isPySpace (c : Char) : Bool :=
  c = ' ' || c = '\t' || c = '\n' || c = '\r' || c = '\x0b' || c = '\x0c'

/-- `_DateParser.__trim_token` (date_injector.py lines 121-125) via the regex
`^(\s*)(.*?)(\s*)$`: split a token into leading whitespace, core, and trailing
whitespace.  Returns `(core, lead, trail)`. -/
def trimToken (t : List Char) : List Char × List Char × List Char :=
  let lead := t.takeWhile isPySpace
  let rest := t.dropWhile isPySpace
  let trail := (rest.reverse.takeWhile isPySpace).reverse
  let core := (rest.reverse.dropWhile isPySpace).reverse
  (core, lead, trail)

/-- Whether `m` is a suffix of `l` (Python `str.endswith`). -/
def endsWithL (m l : List Char) : Bool :=
  m.reverse.isPrefixOf l.reverse

/-- Front walk of `prefix_suffix_from_parts` (date_injector.py lines
102-110): pop leading parts as long as the source starts with them.  Returns
the accumulated prefix, the remaining deque and the shortened source. -/
def psFront : List Char → List (List Char) → List Char →
    List Char × List (List Char) × List Char
  | source, [], acc => (acc, [], source)
  | source, part :: rest, acc =>
    if part.isPrefixOf source then
      psFront (source.drop part.length) rest (acc ++ part)
    else (acc, part :: rest, source)

/-- Back walk of `prefix_suffix_from_parts` (date_injector.py lines 111-119),
consuming the deque from its back (the argument is the remaining deque already
reversed).  NOTE: the source faithfully keeps `source[:len(part)]` - the
FIRST `len(part)` characters - after each pop, exactly as the Python line
`source = source[:len(part)]` does. -/
def psBack : List Char → List (List Char) → List Char → List Char
  | _, [], acc => acc
  | source, part :: rest, acc =>
    if endsWithL part source then
      psBack (source.take part.length) rest (part ++ acc)
    else acc

/-- `_DateParser.prefix_suffix_from_parts` (date_injector.py lines 97-119):
drop empty fragments, then peel matching fragments off the front and off the
back of the token. -/
def prefixSuffixFromParts (token : List Char) (parts : List (List Char)) :
    List Char × List Char :=
  let deq := parts.filter (fun s => s ≠ [])
  let (pre, deq1, src1) := psFront token deq []
  let suf := psBack src1 deq1.reverse []
  (pre, suf)

/-- `_DateParser.inject_date` (date_injector.py lines 69-84): walk the content
runs in order; on the first run whose trimmed core the recognizer accepts,
rebuild that run as `lead ++ prefix ++ date ++ suffix ++ trail` and stop (only
one injection ever happens).  When no run is accepted, raise `ValueError`.
`pd` abstracts `dateutil.parser.parse(token, fuzzy_with_tokens=True)`,
returning the skipped non-date fragments on success. -/
def injectDateGo (pd : List Char → Option (List (List Char))) (date : List Char) :
    List (List Char) → Except PyErr (List (List Char))
  | [] => .error .valueError
  | tok :: rest =>
    let (core, lead, trail) := trimToken tok
    match pd core with
    | none =>
      match injectDateGo pd date rest with
      | .error e => .error e
      | .ok rest' => .ok (tok :: rest')
    | some parts =>
      let (pre, suf) := prefixSuffixFromParts core parts
      .ok ((lead ++ pre ++ date ++ suf ++ trail) :: rest)

/-- `DateInjector._substitute` (date_injector.py lines 45-49): tokenize the
line, inject the formatted date into the content runs, and reassemble.  The
`strftime` result is taken as the already-formatted `date` string. -/
def dateSubstitute (pd : List Char → Option (List (List Char)))
    (date : List Char) (line : List Char) : Except PyErr (List Char) :=
  match injectDateGo pd date (stdTokens line) with
  | .error e => .error e
  | .ok stdT' => rebuildWith line (protTokens line) stdT'

/-! ## Auxiliary executable predicates used to state claims -/

/-- Whether a literal `v`-prefixed digit-dot-digit token starts at the head of
the text: `v`, one or more digits, a dot, at least one digit. -/
def startsVNum (l : List Char) : Bool :=
  match l with
  | c0 :: r =>
    c0 = 'v' &&
      (match digitSpan r with
       | (d1, c1 :: c2 :: _) => !d1.isEmpty && c1 = '.' && c2.isDigit
       | _ => false)
  | [] => false

/-- Whether a literal `v`-prefixed digit-dot-digit token occurs anywhere in
the text. -/
def hasVToken : List Char → Bool
  | [] => false
  | c :: cs => startsVNum (c :: cs) || hasVToken cs

/-- Whether the line starts with one of the four protected control
characters (false on the empty line). -/
def headIsCtrl : List Char → Bool
  | [] => false
  | c :: _ => isCtrl c

/-! ## Theorems -/

/-- With a positive increase, `bump` on a bare core shape always succeeds and
returns the rendering of the updated shape. -/
theorem bumpCore_ok_of_pos (c : VCore) (k : BumpKind) (inc : Int) (h : 1 ≤ inc) :
    ∃ c' : VCore, bumpCore c k inc = (c', .ok c'.render) := by
  have hv : validateBumpIncrease inc = .ok () := by
    simp [validateBumpIncrease]
    omega
  cases c with
  | plain a b =>
    cases k with
    | major => exact ⟨.plain (a + inc) 0, by simp [bumpCore, bumpPlain, hv]⟩
    | minor => exact ⟨.plain a (b + inc), by simp [bumpCore, bumpPlain, hv]⟩
    | patch => exact ⟨.plain a b, by simp [bumpCore, bumpPlain, hv]⟩
  | patched a b p =>
    cases k with
    | major => exact ⟨.patched (a + inc) 0 0, by simp [bumpCore, bumpPatched, hv]⟩
    | minor => exact ⟨.patched a (b + inc) 0, by simp [bumpCore, bumpPatched, hv]⟩
    | patch => exact ⟨.patched a b (p + inc), by simp [bumpCore, bumpPatched, hv]⟩

/-- C1: the lexicographic-triple equality claimed by the specification fails
on the code: a bare patch-carrying version and a build-decorated
patch-carrying version with the identical `(major, minor, patch)` triple
compare unequal in one direction (the bare patch shape's `__eq__` compares
its patch against `0` whenever the other operand is not itself a bare
`_VersionPatch`), while the opposite direction compares equal - so `==` is
not even symmetric, and the build decoration does affect the outcome. -/
theorem c1_eq_not_triple_determined :
    VObj.majorOf (.core (.patched 1 2 5)) = VObj.majorOf (.buildDC (.patched 1 2 5) "x")
    ∧ VObj.minorOf (.core (.patched 1 2 5)) = VObj.minorOf (.buildDC (.patched 1 2 5) "x")
    ∧ VObj.patchOf (.core (.patched 1 2 5)) = VObj.patchOf (.buildDC (.patched 1 2 5) "x")
    ∧ pyEq (.core (.patched 1 2 5)) (.buildDC (.patched 1 2 5) "x") = false
    ∧ pyEq (.buildDC (.patched 1 2 5) "x") (.core (.patched 1 2 5)) = true := by
  decide

/-- C8: `loadable` does raise: the directory check runs outside the `try`
block, so a missing directory propagates `FileNotFoundError` and a
non-directory path propagates `RuntimeError`, contradicting the claim that
`Loadable` returns false rather than raising in those situations. -/
theorem c8_loadable_raises :
    loadable ⟨false, false, false, false⟩ = .error .fileNotFound
    ∧ loadable ⟨true, false, true, true⟩ = .error .runtimeError
    ∧ loadable ⟨true, true, false, false⟩ = .ok false
    ∧ loadable ⟨true, true, true, true⟩ = .ok true :=
  ⟨rfl, rfl, rfl, rfl⟩

/-- C9: on the plain (patch-less) shape - bare or build-decorated -
`bump(PATCH, amount)` with a positive amount validates, falls through the
kind `match` without touching any field, and returns the unchanged rendering:
a silent no-op. -/
theorem c9_patch_bump_noop_on_plain (a b : Int) (t : String) (inc : Int)
    (h : 1 ≤ inc) :
    bumpV (.core (.plain a b)) .patch inc
        = (.core (.plain a b), .ok (VCore.render (.plain a b)))
    ∧ bumpV (.buildDC (.plain a b) t) .patch inc
        = (.buildDC (.plain a b) t, .ok (VObj.render (.buildDC (.plain a b) t))) := by
  have hv : validateBumpIncrease inc = .ok () := by
    simp [validateBumpIncrease]
    omega
  constructor
  · simp [bumpV, bumpCore, bumpPlain, hv]
  · simp [bumpV, bumpCore, bumpPlain, hv]

/-- C9 witness. -/
theorem c9_patch_bump_noop_on_plain_witness :
    bumpV (.core (.plain 3 7)) .patch 2
        = (.core (.plain 3 7), .ok (VCore.render (.plain 3 7)))
    ∧ bumpV (.buildDC (.plain 3 7) "beta") .patch 2
        = (.buildDC (.plain 3 7) "beta", .ok (VObj.render (.buildDC (.plain 3 7) "beta"))) :=
  c9_patch_bump_noop_on_plain 3 7 "beta" 2 (by decide)

/-- C10: on the patch-carrying shape, `bump` with kind `MAJOR` or `MINOR` and
a non-positive amount raises `ValueError` only AFTER the patch field has been
reset to 0 (the reset precedes the delegation to `_Version.bump`, which
validates), so the failed call still mutates the receiver; `bump(PATCH)` with
the same amount validates first and leaves the value untouched. -/
theorem c10_failed_bump_mutates_patch (a b p inc : Int) (h : inc < 1) :
    bumpV (.core (.patched a b p)) .major inc
        = (.core (.patched a b 0), .error .valueError)
    ∧ bumpV (.core (.patched a b p)) .minor inc
        = (.core (.patched a b 0), .error .valueError)
    ∧ bumpV (.core (.patched a b p)) .patch inc
        = (.core (.patched a b p), .error .valueError) := by
  have hv : validateBumpIncrease inc = .error .valueError := by
    simp [validateBumpIncrease]
    omega
  refine ⟨?_, ?_, ?_⟩ <;> simp [bumpV, bumpCore, bumpPatched, hv]

/-- C10 witness. -/
theorem c10_failed_bump_mutates_patch_witness :
    bumpV (.core (.patched 1 2 5)) .major 0
        = (.core (.patched 1 2 0), .error .valueError)
    ∧ bumpV (.core (.patched 1 2 5)) .minor 0
        = (.core (.patched 1 2 0), .error .valueError)
    ∧ bumpV (.core (.patched 1 2 5)) .patch 0
        = (.core (.patched 1 2 5), .error .valueError) :=
  c10_failed_bump_mutates_patch 1 2 5 0 (by decide)

/-- C5: with a positive amount, `MAJOR` adds to major and resets minor (and
patch where present) to 0, `MINOR` adds to minor, resets patch where present
and leaves major unchanged, `PATCH` on the patch-carrying shape adds to patch
only; the returned string is the rendering of the updated value and a build
tag is untouched; including the spec's literal examples. -/
theorem c5_bump_table :
    (∀ a b inc : Int, 1 ≤ inc →
      bumpV (.core (.plain a b)) .major inc
          = (.core (.plain (a + inc) 0), .ok (VCore.render (.plain (a + inc) 0)))
      ∧ bumpV (.core (.plain a b)) .minor inc
          = (.core (.plain a (b + inc)), .ok (VCore.render (.plain a (b + inc)))))
    ∧ (∀ a b p inc : Int, 1 ≤ inc →
      bumpV (.core (.patched a b p)) .major inc
          = (.core (.patched (a + inc) 0 0), .ok (VCore.render (.patched (a + inc) 0 0)))
      ∧ bumpV (.core (.patched a b p)) .minor inc
          = (.core (.patched a (b + inc) 0), .ok (VCore.render (.patched a (b + inc) 0)))
      ∧ bumpV (.core (.patched a b p)) .patch inc
          = (.core (.patched a b (p + inc)), .ok (VCore.render (.patched a b (p + inc)))))
    ∧ (∀ (c : VCore) (t : String) (k : BumpKind) (inc : Int), 1 ≤ inc →
      ∃ c' : VCore, bumpCore c k inc = (c', .ok c'.render)
        ∧ bumpV (.buildDC c t) k inc
            = (.buildDC c' t, .ok (VObj.render (.buildDC c' t))))
    ∧ parseVersionS "v2.9" = .ok (.core (.plain 2 9))
    ∧ bumpV (.core (.plain 2 9)) .minor 1 = (.core (.plain 2 10), .ok "v2.10")
    ∧ bumpV (.core (.plain 2 10)) .major 1 = (.core (.plain 3 0), .ok "v3.0")
    ∧ parseVersionS "v01.12.0001-vanilla" = .ok (.buildDC (.patched 1 12 1) "vanilla")
    ∧ bumpV (.buildDC (.patched 1 12 1) "vanilla") .patch 2
        = (.buildDC (.patched 1 12 3) "vanilla", .ok "v1.12.3-vanilla") := by
  refine ⟨?_, ?_, ?_, ?_, ?_, ?_, ?_, ?_⟩
  · intro a b inc h
    have hv : validateBumpIncrease inc = .ok () := by
      simp [validateBumpIncrease]
      omega
    exact ⟨by simp [bumpV, bumpCore, bumpPlain, hv], by simp [bumpV, bumpCore, bumpPlain, hv]⟩
  · intro a b p inc h
    have hv : validateBumpIncrease inc = .ok () := by
      simp [validateBumpIncrease]
      omega
    refine ⟨?_, ?_, ?_⟩ <;> simp [bumpV, bumpCore, bumpPatched, hv, VCore.render]
  · intro c t k inc h
    obtain ⟨c', hc⟩ := bumpCore_ok_of_pos c k inc h
    exact ⟨c', hc, by simp [bumpV, hc]⟩
  · rfl
  · rfl
  · rfl
  · rfl
  · rfl

/-- C5 witness. -/
theorem c5_bump_table_witness :
    bumpV (.core (.plain 4 9)) .major 2
        = (.core (.plain 6 0), .ok (VCore.render (.plain 6 0)))
    ∧ bumpV (.core (.patched 4 9 5)) .minor 3
        = (.core (.patched 4 12 0), .ok (VCore.render (.patched 4 12 0)))
    ∧ ∃ c' : VCore, bumpCore (.patched 1 2 3) .patch 1 = (c', .ok c'.render)
        ∧ bumpV (.buildDC (.patched 1 2 3) "rc") .patch 1
            = (.buildDC c' "rc", .ok (VObj.render (.buildDC c' "rc"))) :=
  ⟨(c5_bump_table.1 4 9 2 (by decide)).1,
   (c5_bump_table.2.1 4 9 5 3 (by decide)).2.1,
   c5_bump_table.2.2.1 (.patched 1 2 3) "rc" .patch 1 (by decide)⟩

/-- A pass of `__parse_file` that reports `changed = False` performed no
substitution, so the buffer it returns is the input buffer. -/
theorem parseFileGo_unchanged {E : Type} (subst : String → Except E String)
    (marker : String) :
    ∀ (lines out : List String),
      parseFileGo subst marker lines = .ok (out, false) → out = lines
  | [], out, h => by
    simp only [parseFileGo, Except.ok.injEq, Prod.mk.injEq] at h
    exact h.1.symm
  | [x], out, h => by
    simp only [parseFileGo, Except.ok.injEq, Prod.mk.injEq] at h
    exact h.1.symm
  | x :: y :: rest, out, h => by
    unfold parseFileGo at h
    by_cases hc : containsSub marker x
    · rw [if_pos hc] at h
      rcases hs : subst y with e | y' <;> rw [hs] at h
      · exact absurd h (by simp)
      · rcases hr : parseFileGo subst marker rest with e | ⟨rest', c⟩ <;> rw [hr] at h
        · exact absurd h (by simp)
        · simp only [Except.ok.injEq, Prod.mk.injEq] at h
          exact absurd h.2 (by simp)
    · rw [if_neg hc] at h
      rcases hr : parseFileGo subst marker (y :: rest) with e | ⟨out0, c⟩ <;> rw [hr] at h
      · exact absurd h (by simp)
      · simp only [Except.ok.injEq, Prod.mk.injEq] at h
        obtain ⟨h1, h2⟩ := h
        subst h2
        have := parseFileGo_unchanged subst marker (y :: rest) out0 hr
        rw [← h1, this]

/-- C2: an `inject` pass touches the file only after every substitution has
succeeded in memory.  If the pass performed zero substitutions, `inject`
raises `MarkerNotFound` and the file content is byte-identical (indeed the
buffer itself is the unchanged input); if any strategy call fails partway
through, that error propagates and the file content is byte-identical; and
whenever the file content does change, the whole pass had succeeded with at
least one substitution. -/
theorem c2_inject_atomic {E : Type} (subst : String → Except E String)
    (marker : String) (lines out : List String) (e : E) :
    (parseFileGo subst marker lines = .ok (out, false) →
      out = lines ∧ injectFile subst marker lines = (lines, some .markerNotFound))
    ∧ (parseFileGo subst marker lines = .error e →
      injectFile subst marker lines = (lines, some (.strategyFailed e)))
    ∧ (∀ res : List String, injectFile subst marker lines = (res, none) →
      parseFileGo subst marker lines = .ok (res, true)) := by
  refine ⟨?_, ?_, ?_⟩
  · intro h
    refine ⟨parseFileGo_unchanged subst marker lines out h, ?_⟩
    simp [injectFile, injectBuffer, h]
  · intro h
    simp [injectFile, injectBuffer, h]
  · intro res h
    unfold injectFile injectBuffer at h
    rcases hr : parseFileGo subst marker lines with e' | ⟨out', c⟩ <;> rw [hr] at h
    · simp at h
    · cases c with
      | false => simp at h
      | true =>
        simp only [Except.ok.injEq, Prod.mk.injEq] at h
        rw [h.1]

/-- C2 witness: a marker-free file is reported via `MarkerNotFound` with its
content untouched, and a failing strategy call aborts the pass with the
content untouched. -/
theorem c2_inject_atomic_witness :
    (["a", "b"] = ["a", "b"]
      ∧ injectFile (fun s => if s = "bad" then .error "boom" else .ok ("S:" ++ s)) "MARK"
          ["a", "b"] = (["a", "b"], some .markerNotFound))
    ∧ injectFile (fun s => if s = "bad" then .error "boom" else .ok ("S:" ++ s)) "MARK"
        ["x MARK y", "bad", "z"] = (["x MARK y", "bad", "z"], some (.strategyFailed "boom")) :=
  ⟨(c2_inject_atomic (fun s => if s = "bad" then .error "boom" else .ok ("S:" ++ s)) "MARK"
      ["a", "b"] ["a", "b"] "boom").1 rfl,
   (c2_inject_atomic (fun s => if s = "bad" then .error "boom" else .ok ("S:" ++ s)) "MARK"
      ["x MARK y", "bad", "z"] [] "boom").2.1 rfl⟩

/-- A non-empty `takeWhile` exposes a head satisfying the predicate. -/
theorem takeWhile_ne_nil_head {p : Char → Bool} :
    ∀ l : List Char, l.takeWhile p ≠ [] → ∃ c cs, l = c :: cs ∧ p c = true
  | [], h => absurd rfl h
  | c :: cs, h => by
    by_cases hc : p c
    · exact ⟨c, cs, rfl, hc⟩
    · rw [List.takeWhile_cons, if_neg (by simp [hc])] at h
      exact absurd rfl h

/-- A successful anchored match of any of the four version patterns starts
with a literal `v`-prefixed digit-dot-digit token. -/
theorem tryVToken_startsVNum (p b : Bool) (l r : List Char)
    (h : tryVToken p b l = some r) : startsVNum l = true := by
  unfold tryVToken at h
  rcases l with _ | ⟨c0, r0⟩
  · exact absurd h (by simp)
  · simp only at h
    by_cases hc0 : c0 = 'v'
    case neg => rw [if_neg hc0] at h; exact absurd h (by simp)
    case pos =>
      subst hc0
      rw [if_pos rfl] at h
      rcases hd : digitSpan r0 with ⟨d1, r1⟩
      rw [hd] at h
      simp only at h
      split at h
      · exact absurd h (by simp)
      case isFalse hne =>
        rcases hr1 : r1 with _ | ⟨c1, r2⟩ <;> rw [hr1] at h
        · exact absurd h (by simp)
        · simp only at h
          by_cases hdot : c1 = '.'
          case neg => rw [if_neg hdot] at h; exact absurd h (by simp)
          case pos =>
            subst hdot
            rw [if_pos rfl] at h
            rcases hd2 : digitSpan r2 with ⟨d2, r3⟩
            rw [hd2] at h
            simp only at h
            split at h
            · exact absurd h (by simp)
            case isFalse hne2 =>
              have hd2' : r2.takeWhile Char.isDigit = d2 := by
                have hx : (digitSpan r2).1 = d2 := by rw [hd2]
                simpa [digitSpan] using hx
              obtain ⟨c2, cs2, hr2, hc2⟩ := takeWhile_ne_nil_head r2 (by rw [hd2']; exact hne2)
              subst hr2
              simp only [startsVNum, hd, hr1]
              simp [hc2, List.isEmpty_iff, hne]

/-- A successful pattern scan implies the line contains a literal
`v`-prefixed token. -/
theorem scanVToken_some_hasVToken (p b : Bool) :
    ∀ (l acc : List Char) (g : List Char × List Char),
      scanVToken p b acc l = some g → hasVToken l = true
  | [], _, _, h => by simp [scanVToken] at h
  | c :: cs, acc, g, h => by
    unfold scanVToken at h
    rcases ht : tryVToken p b (c :: cs) with _ | r <;> rw [ht] at h
    · by_cases hc : c = '\n'
      · rw [if_pos hc] at h
        exact absurd h (by simp)
      · rw [if_neg hc] at h
        have := scanVToken_some_hasVToken p b cs (c :: acc) g h
        simp [hasVToken, this]
    · have := tryVToken_startsVNum p b (c :: cs) r ht
      simp [hasVToken, this]

/-- A `v`-prefixed token at the head makes the bare (no patch, no build)
anchored pattern succeed. -/
theorem startsVNum_tryBare (l : List Char) (hs : startsVNum l = true) :
    ∃ r, tryVToken false false l = some r := by
  rcases l with _ | ⟨c0, cs⟩
  · simp [startsVNum] at hs
  · unfold startsVNum at hs
    simp only [Bool.and_eq_true, decide_eq_true_eq] at hs
    obtain ⟨hv, hs⟩ := hs
    subst hv
    rcases hd : digitSpan cs with ⟨d1, r1⟩
    rw [hd] at hs
    rcases hr1 : r1 with _ | ⟨c1, r2⟩ <;> rw [hr1] at hs
    · simp at hs
    · rcases hr2 : r2 with _ | ⟨c2, cs2⟩ <;> rw [hr2] at hs
      · simp at hs
      · simp only [Bool.and_eq_true, Bool.not_eq_true', List.isEmpty_iff,
          decide_eq_true_eq] at hs
        obtain ⟨⟨hd1ne, hdot⟩, hc2⟩ := hs
        subst hdot
        rw [hr1, hr2] at hd
        have h2 : (digitSpan (c2 :: cs2)).1 ≠ [] := by
          simp [digitSpan, List.takeWhile_cons, hc2]
        have hd1ne' : d1 ≠ [] := by
          intro hh
          rw [hh] at hd1ne
          simp at hd1ne
        exact ⟨(digitSpan (c2 :: cs2)).2, by simp [tryVToken, hd, hd1ne', h2]⟩

/-- Conversely, on a newline-free line containing a `v`-prefixed token the
bare pattern (no patch, no build) scan succeeds. -/
theorem hasVToken_scan_bare :
    ∀ (l acc : List Char), '\n' ∉ l → hasVToken l = true →
      (scanVToken false false acc l).isSome = true
  | [], acc, _, h => by simp [hasVToken] at h
  | c :: cs, acc, hnl, h => by
    unfold scanVToken
    rcases ht : tryVToken false false (c :: cs) with _ | r
    · simp only
      have hc : ¬c = '\n' := by
        intro hh
        exact hnl (by simp [hh])
      rw [if_neg hc]
      have hcs : hasVToken cs = true := by
        rcases (Bool.or_eq_true _ _).mp (by simpa [hasVToken] using h) with hs | hs
        · obtain ⟨r, htr⟩ := startsVNum_tryBare (c :: cs) hs
          rw [htr] at ht
          exact absurd ht (by simp)
        · exact hs
      exact hasVToken_scan_bare cs (c :: acc) (fun hm => hnl (by simp [hm])) hcs
    · simp

/-- C6 counterexample: the line `Version: 2.4.1 here` contains a bare
(un-prefixed) digit-dot-digit version token - `Version.__new__`'s own
major/minor scanner finds one - yet `VersionInjector._substitute` raises
`NoVersionToken` (`RuntimeError`), because every recognition pattern demands
a literal `v` prefix. -/
theorem c6_counterexample :
    (mmScan "Version: 2.4.1 here".data).isSome = true
    ∧ versionSubstitute "v9.99.999" "Version: 2.4.1 here" = .error .runtimeError := by
  exact ⟨rfl, rfl⟩

/-- C6 (amended): the strategy tries the four patterns in the order
(build+patch), (build no patch), (patch no build), (plain), returning
`prefix + rendered version + suffix` for the first match; on a newline-free
line it fails with `NoVersionToken` exactly when the line contains no literal
`v`-prefixed digit-dot-digit token (bare un-prefixed tokens are NOT
recognized). -/
theorem c6_amended (ver line : String) (hnl : '\n' ∉ line.data) :
    (versionSubstitute ver line = .error .runtimeError ↔ hasVToken line.data = false)
    ∧ (∀ g1 g2 : List Char, scanVToken true true [] line.data = some (g1, g2) →
        versionSubstitute ver line = .ok (String.mk (g1 ++ ver.data ++ g2))) := by
  constructor
  · constructor
    · intro h
      rcases hs : scanVToken false false [] line.data with _ | g
      · rcases hh : hasVToken line.data with hv | hv
        · rfl
        · have := hasVToken_scan_bare line.data [] hnl hh
          rw [hs] at this
          simp at this
      · unfold versionSubstitute at h
        rcases h1 : scanVToken true true [] line.data with _ | ⟨g1, g2⟩ <;> rw [h1] at h
        · rcases h2 : scanVToken false true [] line.data with _ | ⟨g1, g2⟩ <;> rw [h2] at h
          · rcases h3 : scanVToken true false [] line.data with _ | ⟨g1, g2⟩ <;> rw [h3] at h
            · rw [hs] at h
              simp at h
            · simp at h
          · simp at h
        · simp at h
    · intro h
      have n1 : scanVToken true true [] line.data = none := by
        rcases hs : scanVToken true true [] line.data with _ | g
        · rfl
        · rw [scanVToken_some_hasVToken true true line.data [] g hs] at h
          simp at h
      have n2 : scanVToken false true [] line.data = none := by
        rcases hs : scanVToken false true [] line.data with _ | g
        · rfl
        · rw [scanVToken_some_hasVToken false true line.data [] g hs] at h
          simp at h
      have n3 : scanVToken true false [] line.data = none := by
        rcases hs : scanVToken true false [] line.data with _ | g
        · rfl
        · rw [scanVToken_some_hasVToken true false line.data [] g hs] at h
          simp at h
      have n4 : scanVToken false false [] line.data = none := by
        rcases hs : scanVToken false false [] line.data with _ | g
        · rfl
        · rw [scanVToken_some_hasVToken false false line.data [] g hs] at h
          simp at h
      simp [versionSubstitute, n1, n2, n3, n4]
  · intro g1 g2 h
    simp [versionSubstitute, h]

/-- C6 witness. -/
theorem c6_amended_witness :
    (versionSubstitute "v9.99.999" "ver = 'x.y.z'" = .error .runtimeError
      ↔ hasVToken "ver = 'x.y.z'".data = false)
    ∧ versionSubstitute "v9.99.999" "s = 'v2.4.1-rc7' -- pin"
        = .ok (String.mk ("s = '".data ++ "v9.99.999".data ++ "' -- pin".data)) :=
  ⟨(c6_amended "v9.99.999" "ver = 'x.y.z'" (by decide)).1,
   (c6_amended "v9.99.999" "s = 'v2.4.1-rc7' -- pin" (by decide)).2
     "s = '".data "' -- pin".data rfl⟩

/-- `takeWhile` walks through a block of satisfying elements. -/
theorem takeWhile_append_all {p : Char → Bool} (d r : List Char)
    (h : ∀ c ∈ d, p c = true) : (d ++ r).takeWhile p = d ++ r.takeWhile p := by
  induction d with
  | nil => simp
  | cons x xs ih =>
    simp only [List.cons_append, List.takeWhile_cons, h x (by simp), if_true,
      List.cons.injEq, true_and]
    exact ih (fun c hc => h c (by simp [hc]))

/-- `dropWhile` walks through a block of satisfying elements. -/
theorem dropWhile_append_all {p : Char → Bool} (d r : List Char)
    (h : ∀ c ∈ d, p c = true) : (d ++ r).dropWhile p = r.dropWhile p := by
  induction d with
  | nil => simp
  | cons x xs ih =>
    simp only [List.cons_append, List.dropWhile_cons, h x (by simp), if_true]
    exact ih (fun c hc => h c (by simp [hc]))

/-- A decimal digit is none of the delimiter characters in play. -/
theorem isDigit_ne (c : Char) (h : c.isDigit = true) :
    c ≠ '.' ∧ c ≠ '\n' ∧ c ≠ '-' := by
  refine ⟨?_, ?_, ?_⟩ <;> (intro hh; subst hh; exact absurd h (by decide))

/-- On a newline-free list, taking while not-newline is the identity. -/
theorem takeWhile_ne_nl (t : List Char) (h : '\n' ∉ t) :
    t.takeWhile (fun x => x ≠ '\n') = t := by
  induction t with
  | nil => rfl
  | cons c cs ih =>
    have hc : ¬c = '\n' := fun hh => h (by simp [hh])
    rw [List.takeWhile_cons, if_pos (by simp [hc]), ih (fun hm => h (by simp [hm]))]

/-- `digitSpan` on a digit block followed by a non-digit boundary. -/
theorem digitSpan_block (d r : List Char) (hd : ∀ c ∈ d, c.isDigit = true)
    (hr : r.takeWhile Char.isDigit = []) : digitSpan (d ++ r) = (d, r) := by
  unfold digitSpan
  rw [takeWhile_append_all d r hd, dropWhile_append_all d r hd, hr]
  have : r.dropWhile Char.isDigit = r := by
    cases r with
    | nil => rfl
    | cons c cs =>
      rw [List.takeWhile_cons] at hr
      by_cases hc : c.isDigit
      · rw [if_pos hc] at hr
        exact absurd hr (by simp)
      · simp [List.dropWhile_cons, hc]
  rw [this, List.append_nil]

/-- The anchored major/minor pattern on `digits ++ "." ++ digits ++ boundary`
captures exactly the two digit groups. -/
theorem tryMM_family (d1 d2 r : List Char) (h1 : d1 ≠ [])
    (h2 : ∀ c ∈ d1, c.isDigit = true) (h3 : d2 ≠ [])
    (h4 : ∀ c ∈ d2, c.isDigit = true) (hr : r.takeWhile Char.isDigit = []) :
    tryMM (d1 ++ '.' :: (d2 ++ r)) = some (d1, d2) := by
  have hs1 : digitSpan (d1 ++ '.' :: (d2 ++ r)) = (d1, '.' :: (d2 ++ r)) :=
    digitSpan_block d1 ('.' :: (d2 ++ r)) h2 (by simp [List.takeWhile_cons])
  have hs2 : (d2 ++ r).takeWhile Char.isDigit = d2 := by
    rw [takeWhile_append_all d2 r h4, hr, List.append_nil]
  simp [tryMM, hs1, h1, hs2, h3]

/-- The lazy major/minor scan finds the leading digit pair of the family
string immediately. -/
theorem mmScan_family (d1 d2 r : List Char) (h1 : d1 ≠ [])
    (h2 : ∀ c ∈ d1, c.isDigit = true) (h3 : d2 ≠ [])
    (h4 : ∀ c ∈ d2, c.isDigit = true) (hr : r.takeWhile Char.isDigit = []) :
    mmScan (d1 ++ '.' :: (d2 ++ r)) = some (d1, d2) := by
  rcases d1 with _ | ⟨c, d1'⟩
  · exact absurd rfl h1
  · show mmScan (c :: (d1' ++ '.' :: (d2 ++ r))) = some (c :: d1', d2)
    unfold mmScan
    rw [show c :: (d1' ++ '.' :: (d2 ++ r)) = (c :: d1') ++ '.' :: (d2 ++ r) from rfl,
      tryMM_family (c :: d1') d2 r h1 h2 h3 h4 hr]

/-- Reading off a `digitSpan` equation: the text splits as the digit block
followed by the rest. -/
theorem digitSpan_decomp (l e r : List Char) (hd : digitSpan l = (e, r)) :
    l = e ++ r := by
  have h1 : l.takeWhile Char.isDigit = e := by
    rw [show e = (digitSpan l).1 from by rw [hd]]
    rfl
  have h2 : l.dropWhile Char.isDigit = r := by
    rw [show r = (digitSpan l).2 from by rw [hd]]
    rfl
  rw [← h1, ← h2, List.takeWhile_append_dropWhile]

/-- The anchored patch pattern needs two dots in its text. -/
theorem tryPatch_two_dots (l : List Char) (h : (tryPatch l).isSome = true) :
    2 ≤ l.count '.' := by
  unfold tryPatch at h
  rcases hd : digitSpan l with ⟨e1, r1⟩
  rw [hd] at h
  simp only at h
  by_cases he1 : e1 = []
  · rw [if_pos he1] at h
    simp at h
  · rw [if_neg he1] at h
    rcases hr1 : r1 with _ | ⟨c1, r2⟩ <;> rw [hr1] at h
    · simp at h
    · simp only at h
      by_cases hc1 : c1 = '.'
      case neg =>
        rw [if_neg hc1] at h
        simp at h
      case pos =>
        subst hc1
        rw [if_pos rfl] at h
        rcases hd2 : digitSpan r2 with ⟨e2, r3⟩
        rw [hd2] at h
        simp only at h
        by_cases he2 : e2 = []
        · rw [if_pos he2] at h
          simp at h
        · rw [if_neg he2] at h
          rcases hr3 : r3 with _ | ⟨c2, r4⟩ <;> rw [hr3] at h
          · simp at h
          · simp only at h
            by_cases hc2 : c2 = '.'
            case neg =>
              rw [if_neg hc2] at h
              simp at h
            case pos =>
              subst hc2
              have hl : l = e1 ++ '.' :: r2 := by
                have hx := digitSpan_decomp l e1 r1 hd
                rw [hr1] at hx
                exact hx
              have hr2eq : r2 = e2 ++ '.' :: r4 := by
                have hx := digitSpan_decomp r2 e2 r3 hd2
                rw [hr3] at hx
                exact hx
              rw [hl, hr2eq]
              simp [List.count_append, List.count_cons]
              omega

/-- The lazy patch scan fails on any text with at most one dot. -/
theorem patchScan_none_le_one_dot :
    ∀ l : List Char, l.count '.' ≤ 1 → patchScan l = none
  | [], _ => rfl
  | c :: cs, h => by
    unfold patchScan
    have ht : tryPatch (c :: cs) = none := by
      rcases hh : tryPatch (c :: cs) with _ | v
      · rfl
      · have := tryPatch_two_dots (c :: cs) (by simp [hh])
        omega
    rw [ht]
    have hcs : cs.count '.' ≤ 1 :=
      le_trans (List.Sublist.count_le (List.sublist_cons_self c cs) '.') h
    by_cases hc : c = '\n'
    · rw [if_pos hc]
    · rw [if_neg hc]
      exact patchScan_none_le_one_dot cs hcs

/-- The anchored build pattern fails on dot-free text. -/
theorem tryBuild_none_no_dot (l : List Char) (h : '.' ∉ l) :
    tryBuild l = none := by
  rcases hd : digitSpan l with ⟨e1, r1⟩
  have hl : l = e1 ++ r1 := digitSpan_decomp l e1 r1 hd
  unfold tryBuild
  rw [hd]
  simp only
  by_cases he : e1 = []
  · rw [if_pos he]
  · rw [if_neg he]
    rcases hr1 : r1 with _ | ⟨c1, r2⟩
    · rfl
    · have hc1 : ¬c1 = '.' := by
        intro hh
        exact h (by rw [hl, hr1, hh]; simp)
      simp [hc1]

/-- The greedy build scan fails on dot-free text. -/
theorem buildScan_none_no_dot : ∀ l : List Char, '.' ∉ l → buildScan l = none
  | [], _ => rfl
  | c :: cs, h => by
    unfold buildScan
    have hcs : buildScan cs = none :=
      buildScan_none_no_dot cs (fun hm => h (by simp [hm]))
    have hin : (if c = '\n' then none else buildScan cs) = (none : Option (List Char)) := by
      by_cases hc : c = '\n'
      · rw [if_pos hc]
      · rw [if_neg hc, hcs]
    rw [hin]
    exact tryBuild_none_no_dot (c :: cs) h

/-- The greedy build scan fails on `digits ++ "-" ++ tag` when the tag is
dot-free (no dot means the required `\d+\.\d+` core can never match). -/
theorem buildScan_digits_dash (d2 t : List Char)
    (h4 : ∀ c ∈ d2, c.isDigit = true) (hdot : '.' ∉ t) :
    buildScan (d2 ++ '-' :: t) = none := by
  have : '.' ∉ d2 ++ '-' :: t := by
    intro hm
    rcases List.mem_append.mp hm with hm | hm
    · exact absurd (h4 '.' hm) (by decide)
    · rcases List.mem_cons.mp hm with hm | hm
      · exact absurd hm (by decide)
      · exact hdot hm
  exact buildScan_none_no_dot _ this

/-- The greedy build scan on the family string captures the full tag. -/
theorem buildScan_family : ∀ (d1 d2 t : List Char), d1 ≠ [] →
    (∀ c ∈ d1, c.isDigit = true) → d2 ≠ [] → (∀ c ∈ d2, c.isDigit = true) →
    t ≠ [] → '.' ∉ t → '\n' ∉ t →
    buildScan (d1 ++ '.' :: (d2 ++ '-' :: t)) = some t
  | [], _, _, h1, _, _, _, _, _, _ => absurd rfl h1
  | [x], d2, t, _, h2, h3, h4, h5, h6, h7 => by
    have hxd : x.isDigit = true := h2 x (by simp)
    have hxnl : ¬x = '\n' := (isDigit_ne x hxd).2.1
    show buildScan (x :: ('.' :: (d2 ++ '-' :: t))) = some t
    unfold buildScan
    have hdotscan : buildScan ('.' :: (d2 ++ '-' :: t)) = none := by
      unfold buildScan
      have hinner : buildScan (d2 ++ '-' :: t) = none := buildScan_digits_dash d2 t h4 h6
      have hnl : ('.' : Char) ≠ '\n' := by decide
      rw [if_neg hnl, hinner]
      have hsp : digitSpan ('.' :: (d2 ++ '-' :: t)) = ([], '.' :: (d2 ++ '-' :: t)) := by
        simp [digitSpan, List.takeWhile_cons, List.dropWhile_cons]
      simp [tryBuild, hsp]
    rw [if_neg hxnl, hdotscan]
    have hs1 : digitSpan (x :: ('.' :: (d2 ++ '-' :: t))) = ([x], '.' :: (d2 ++ '-' :: t)) := by
      rw [show x :: ('.' :: (d2 ++ '-' :: t)) = [x] ++ '.' :: (d2 ++ '-' :: t) from rfl]
      exact digitSpan_block [x] _ (by simpa using hxd) (by simp [List.takeWhile_cons])
    have hs2 : digitSpan (d2 ++ '-' :: t) = (d2, '-' :: t) :=
      digitSpan_block d2 _ h4 (by simp [List.takeWhile_cons])
    have hdash : ¬('-' : Char) = '.' := by decide
    simp only [tryBuild, hs1, hs2]
    rw [if_pos trivial, if_neg h3, if_neg hdash]
    simp only
    rw [if_neg (by simp : ¬([x] : List Char) = []), if_pos trivial,
      takeWhile_ne_nl t h7, if_neg h5]
  | x :: y :: ds, d2, t, _, h2, h3, h4, h5, h6, h7 => by
    have hxd : x.isDigit = true := h2 x (by simp)
    have hxnl : ¬x = '\n' := (isDigit_ne x hxd).2.1
    show buildScan (x :: ((y :: ds) ++ '.' :: (d2 ++ '-' :: t))) = some t
    unfold buildScan
    have hrec : buildScan ((y :: ds) ++ '.' :: (d2 ++ '-' :: t)) = some t :=
      buildScan_family (y :: ds) d2 t (by simp) (fun c hc => h2 c (by simp [List.mem_cons] at hc ⊢; tauto))
        h3 h4 h5 h6 h7
    rw [if_neg hxnl, hrec]

/-- C7 counterexample: `Version.__new__("1.0-be!ta")` wraps the plain shape in
the build decorator with tag `be!ta`, which contains the non-alphanumeric
character `!` - contradicting the claim that a tag with non-alphanumeric
characters does not produce a build-tagged version.  The build regex captures
`(.+)`, not `[a-zA-Z0-9]+`. -/
theorem c7_counterexample :
    parseVersionS "1.0-be!ta" = .ok (.buildDC (.plain 1 0) "be!ta")
    ∧ isAsciiAlnum '!' = false ∧ '!' ∈ "be!ta".data := by
  exact ⟨rfl, rfl, by decide⟩

/-- C7 (amended): Parse wraps the constructed shape in the build variant when
the text contains, after the numeric `major.minor` portion, a trailing `-`
followed by one or more characters - alphanumeric or not - and the build tag
consists of all of those characters (here stated for every
`digits.digits-tag` input with a dot-free, newline-free, non-empty tag). -/
theorem c7_amended (d1 d2 t : List Char) (h1 : d1 ≠ [])
    (h2 : ∀ c ∈ d1, c.isDigit = true) (h3 : d2 ≠ [])
    (h4 : ∀ c ∈ d2, c.isDigit = true) (h5 : t ≠ []) (h6 : '.' ∉ t)
    (h7 : '\n' ∉ t) :
    parseVersion (d1 ++ '.' :: (d2 ++ '-' :: t))
      = .ok (.buildDC (.plain (intOfDigits d1) (intOfDigits d2)) (String.mk t)) := by
  have hmm : mmScan (d1 ++ '.' :: (d2 ++ '-' :: t)) = some (d1, d2) :=
    mmScan_family d1 d2 ('-' :: t) h1 h2 h3 h4 (by simp [List.takeWhile_cons])
  have hpatch : patchScan (d1 ++ '.' :: (d2 ++ '-' :: t)) = none := by
    apply patchScan_none_le_one_dot
    have c1 : d1.count '.' = 0 := by
      rw [List.count_eq_zero]
      intro hm
      exact absurd (h2 '.' hm) (by decide)
    have c2 : d2.count '.' = 0 := by
      rw [List.count_eq_zero]
      intro hm
      exact absurd (h4 '.' hm) (by decide)
    have c3 : t.count '.' = 0 := by
      rw [List.count_eq_zero]
      exact h6
    simp [List.count_append, List.count_cons, c1, c2, c3]
  have hbuild : buildScan (d1 ++ '.' :: (d2 ++ '-' :: t)) = some t :=
    buildScan_family d1 d2 t h1 h2 h3 h4 h5 h6 h7
  simp [parseVersion, hmm, hpatch, hbuild]

/-- C7 witness: the tag `be!ta` (with a non-alphanumeric character) is
accepted on the family input `77.08-be!ta`. -/
theorem c7_amended_witness :
    parseVersion ("77".data ++ '.' :: ("08".data ++ '-' :: "be!ta".data))
      = .ok (.buildDC (.plain (intOfDigits "77".data) (intOfDigits "08".data))
          (String.mk "be!ta".data)) :=
  c7_amended "77".data "08".data "be!ta".data (by decide) (by decide) (by decide)
    (by decide) (by decide) (by decide) (by decide)

/-- Pushing the leading element through a zipper merge swaps the roles of the
two lists. -/
theorem zipperMerge_cons {α : Type} :
    ∀ (x : α) (xs ys : List α), zipperMerge (x :: xs) ys = x :: zipperMerge ys xs
  | _, _, [] => by simp [zipperMerge]
  | x, xs, y :: ys => by
    show x :: y :: zipperMerge xs ys = x :: zipperMerge (y :: ys) xs
    rw [zipperMerge_cons y ys xs]
termination_by _ xs ys => xs.length + ys.length

/-- The unfolding equation of the tokenizer. -/
theorem runsOf_cons (c : Char) (cs : List Char) :
    runsOf (c :: cs)
      = (c :: cs.takeWhile (fun d => isCtrl d == isCtrl c))
        :: runsOf (cs.dropWhile (fun d => isCtrl d == isCtrl c)) := by
  rw [runsOf]

/-- Flattening the runs reconstructs the input. -/
theorem flatten_runsOf : ∀ l : List Char, (runsOf l).flatten = l
  | [] => by rw [runsOf]; rfl
  | c :: cs => by
    rw [runsOf_cons, List.flatten_cons,
      flatten_runsOf (cs.dropWhile (fun d => isCtrl d == isCtrl c))]
    simp [List.takeWhile_append_dropWhile]
termination_by l => l.length
decreasing_by
  simp only [List.length_cons]
  exact Nat.lt_succ_of_le (List.IsSuffix.length_le (List.dropWhile_suffix _))

/-- Every run produced by the tokenizer is non-empty. -/
theorem runsOf_mem_ne_nil : ∀ (l : List Char) (r : List Char), r ∈ runsOf l → r ≠ []
  | [], _, hr => by rw [runsOf] at hr; exact absurd hr (by simp)
  | c :: cs, r, hr => by
    rw [runsOf_cons] at hr
    rcases List.mem_cons.mp hr with h | h
    · rw [h]
      simp
    · exact runsOf_mem_ne_nil (cs.dropWhile (fun d => isCtrl d == isCtrl c)) r h
termination_by l _ => l.length
decreasing_by
  simp only [List.length_cons]
  exact Nat.lt_succ_of_le (List.IsSuffix.length_le (List.dropWhile_suffix _))

/-- The head of the remainder after a run has the opposite control-ness. -/
theorem dropWhile_run_head (c d : Char) (cs ds : List Char)
    (h : cs.dropWhile (fun x => isCtrl x == isCtrl c) = d :: ds) :
    isCtrl d = !isCtrl c := by
  have := List.head_dropWhile_not (fun x => isCtrl x == isCtrl c) cs
  rw [h] at this
  simp only [ne_eq, List.head_cons] at this
  have hx := this (by simp)
  simp only [beq_eq_false_iff_ne, ne_eq] at hx
  rcases hb : isCtrl c <;> rcases hbd : isCtrl d <;> simp_all

/-- The control runs and the content runs, zipper-merged with the sequence
that opens the line leading, reproduce the run sequence of the line. -/
theorem merge_runs : ∀ l : List Char,
    (headIsCtrl l = true → zipperMerge (protTokens l) (stdTokens l) = runsOf l)
    ∧ (headIsCtrl l = false → zipperMerge (stdTokens l) (protTokens l) = runsOf l)
  | [] => by
    constructor
    · intro h
      simp [headIsCtrl] at h
    · intro _
      rw [show runsOf [] = [] from by rw [runsOf]]
      simp [protTokens, stdTokens, zipperMerge, show runsOf [] = [] from by rw [runsOf]]
  | c :: cs => by
    have hrun := runsOf_cons c cs
    set take := cs.takeWhile (fun d => isCtrl d == isCtrl c) with htake
    set rest := cs.dropWhile (fun d => isCtrl d == isCtrl c) with hrest
    have hdec : rest.length < (c :: cs).length := by
      simp only [List.length_cons]
      exact Nat.lt_succ_of_le (List.IsSuffix.length_le (by rw [hrest]; exact List.dropWhile_suffix _))
    have ih := merge_runs rest
    have hhead : headIsCtrl (c :: cs) = isCtrl c := rfl
    have hR0 : runIsCtrl (c :: take) = isCtrl c := rfl
    constructor
    · intro hctrl
      rw [hhead] at hctrl
      have hprot : protTokens (c :: cs) = (c :: take) :: protTokens rest := by
        unfold protTokens
        rw [hrun, List.filter_cons_of_pos (by rw [hR0, hctrl])]
      have hstd : stdTokens (c :: cs) = stdTokens rest := by
        unfold stdTokens
        rw [hrun, List.filter_cons_of_neg (by rw [hR0, hctrl]; simp)]
      rw [hprot, hstd, zipperMerge_cons, hrun]
      rcases hr : rest with _ | ⟨d, ds⟩
      · rw [show runsOf [] = [] from by rw [runsOf]]
        simp [protTokens, stdTokens, zipperMerge, show runsOf [] = [] from by rw [runsOf]]
      · have hd : isCtrl d = !isCtrl c := dropWhile_run_head c d cs ds (by rw [← hrest, hr])
        have : headIsCtrl rest = false := by
          rw [hr]
          show isCtrl d = false
          rw [hd, hctrl]
          rfl
        rw [← hr, ih.2 (by rw [this])]
    · intro hctrl
      rw [hhead] at hctrl
      have hprot : protTokens (c :: cs) = protTokens rest := by
        unfold protTokens
        rw [hrun, List.filter_cons_of_neg (by rw [hR0, hctrl]; simp)]
      have hstd : stdTokens (c :: cs) = (c :: take) :: stdTokens rest := by
        unfold stdTokens
        rw [hrun, List.filter_cons_of_pos (by rw [hR0, hctrl]; rfl)]
      rw [hprot, hstd, zipperMerge_cons, hrun]
      rcases hr : rest with _ | ⟨d, ds⟩
      · rw [show runsOf [] = [] from by rw [runsOf]]
        simp [protTokens, stdTokens, zipperMerge, show runsOf [] = [] from by rw [runsOf]]
      · have hd : isCtrl d = !isCtrl c := dropWhile_run_head c d cs ds (by rw [← hrest, hr])
        have : headIsCtrl rest = true := by
          rw [hr]
          show isCtrl d = true
          rw [hd, hctrl]
          rfl
        rw [← hr, ih.1 (by rw [this])]
termination_by l => l.length

/-- The run counts of the two sequences differ by at most one, with the
sequence that opens the line at least as long as the other. -/
theorem runs_length : ∀ l : List Char,
    (headIsCtrl l = true →
      (stdTokens l).length ≤ (protTokens l).length
      ∧ (protTokens l).length ≤ (stdTokens l).length + 1)
    ∧ (headIsCtrl l = false →
      (protTokens l).length ≤ (stdTokens l).length
      ∧ (stdTokens l).length ≤ (protTokens l).length + 1)
  | [] => by
    constructor
    · intro h
      simp [headIsCtrl] at h
    · intro _
      simp [protTokens, stdTokens, show runsOf [] = [] from by rw [runsOf]]
  | c :: cs => by
    have hrun := runsOf_cons c cs
    set take := cs.takeWhile (fun d => isCtrl d == isCtrl c) with htake
    set rest := cs.dropWhile (fun d => isCtrl d == isCtrl c) with hrest
    have hdec : rest.length < (c :: cs).length := by
      simp only [List.length_cons]
      exact Nat.lt_succ_of_le (List.IsSuffix.length_le (by rw [hrest]; exact List.dropWhile_suffix _))
    have ih := runs_length rest
    have hhead : headIsCtrl (c :: cs) = isCtrl c := rfl
    have hR0 : runIsCtrl (c :: take) = isCtrl c := rfl
    constructor
    · intro hctrl
      rw [hhead] at hctrl
      have hprot : protTokens (c :: cs) = (c :: take) :: protTokens rest := by
        unfold protTokens
        rw [hrun, List.filter_cons_of_pos (by rw [hR0, hctrl])]
      have hstd : stdTokens (c :: cs) = stdTokens rest := by
        unfold stdTokens
        rw [hrun, List.filter_cons_of_neg (by rw [hR0, hctrl]; simp)]
      rw [hprot, hstd]
      rcases hr : rest with _ | ⟨d, ds⟩
      · simp [protTokens, stdTokens, show runsOf [] = [] from by rw [runsOf]]
      · have hd : isCtrl d = !isCtrl c := dropWhile_run_head c d cs ds (by rw [← hrest, hr])
        have hhr : headIsCtrl rest = false := by
          rw [hr]
          show isCtrl d = false
          rw [hd, hctrl]
          rfl
        have hlen := ih.2 hhr
        rw [hr] at hlen
        constructor
        · simp only [List.length_cons]
          omega
        · simp only [List.length_cons]
          omega
    · intro hctrl
      rw [hhead] at hctrl
      have hprot : protTokens (c :: cs) = protTokens rest := by
        unfold protTokens
        rw [hrun, List.filter_cons_of_neg (by rw [hR0, hctrl]; simp)]
      have hstd : stdTokens (c :: cs) = (c :: take) :: stdTokens rest := by
        unfold stdTokens
        rw [hrun, List.filter_cons_of_pos (by rw [hR0, hctrl]; rfl)]
      rw [hprot, hstd]
      rcases hr : rest with _ | ⟨d, ds⟩
      · simp [protTokens, stdTokens, show runsOf [] = [] from by rw [runsOf]]
      · have hd : isCtrl d = !isCtrl c := dropWhile_run_head c d cs ds (by rw [← hrest, hr])
        have hhr : headIsCtrl rest = true := by
          rw [hr]
          show isCtrl d = true
          rw [hd, hctrl]
          rfl
        have hlen := ih.1 hhr
        rw [hr] at hlen
        constructor
        · simp only [List.length_cons]
          omega
        · simp only [List.length_cons]
          omega
termination_by l => l.length

/-- C4 counterexample: on the empty input string both run sequences are empty
and `rebuild` evaluates `prot[0]`, raising `IndexError` instead of
reconstructing the (empty) input - so the reconstruction property does not
hold for EVERY input string. -/
theorem c4_counterexample : rebuildLine [] = .error .indexError := by
  have h0 : runsOf [] = [] := by rw [runsOf]
  simp [rebuildLine, rebuildWith, protTokens, stdTokens, h0]

/-- `rebuild` when the control runs outnumber the content runs. -/
theorem rebuildWith_big_prot (content : List Char) (protT stdT : List (List Char))
    (h : stdT.length < protT.length) :
    rebuildWith content protT stdT = .ok (zipperMerge protT stdT).flatten := by
  unfold rebuildWith
  rw [if_pos h]

/-- `rebuild` when the content runs outnumber the control runs. -/
theorem rebuildWith_big_std (content : List Char) (protT stdT : List (List Char))
    (h : protT.length < stdT.length) :
    rebuildWith content protT stdT = .ok (zipperMerge stdT protT).flatten := by
  unfold rebuildWith
  rw [if_neg (by omega), if_pos h]

/-- `rebuild` on equal counts with at least one control run: decided by the
`startswith(prot[0])` test. -/
theorem rebuildWith_eq_cons (content p0 : List Char) (pts stdT : List (List Char))
    (h : (p0 :: pts).length = stdT.length) :
    rebuildWith content (p0 :: pts) stdT
      = if p0.isPrefixOf content = true then .ok (zipperMerge (p0 :: pts) stdT).flatten
        else .ok (zipperMerge stdT (p0 :: pts)).flatten := by
  unfold rebuildWith
  rw [if_neg (by omega), if_neg (by omega)]

/-- C4 (amended): for every NON-EMPTY input string the token decomposition is
lossless - rebuilding from the control runs and content runs (zipper merge
led by the longer sequence, ties broken by which run opens the string)
reconstructs the input exactly when no substitution is performed. -/
theorem c4_rebuild_lossless (l : List Char) (h : l ≠ []) :
    rebuildLine l = .ok l := by
  rcases l with _ | ⟨c, cs⟩
  · exact absurd rfl h
  · have hflat : (runsOf (c :: cs)).flatten = c :: cs := flatten_runsOf _
    have hhead : headIsCtrl (c :: cs) = isCtrl c := rfl
    have hrun := runsOf_cons c cs
    set take := cs.takeWhile (fun d => isCtrl d == isCtrl c) with htake
    set rest := cs.dropWhile (fun d => isCtrl d == isCtrl c) with hrest
    have hsplit : take ++ rest = cs := by
      rw [htake, hrest, List.takeWhile_append_dropWhile]
    show rebuildWith (c :: cs) (protTokens (c :: cs)) (stdTokens (c :: cs)) = .ok (c :: cs)
    by_cases hctrl : isCtrl c
    · obtain ⟨hl1, hl2⟩ := (runs_length (c :: cs)).1 (by rw [hhead, hctrl])
      have hmerge := (merge_runs (c :: cs)).1 (by rw [hhead, hctrl])
      have hprot : protTokens (c :: cs) = (c :: take) :: protTokens rest := by
        unfold protTokens
        rw [hrun, List.filter_cons_of_pos (by rw [show runIsCtrl (c :: take) = isCtrl c from rfl, hctrl])]
      by_cases hgt : (stdTokens (c :: cs)).length < (protTokens (c :: cs)).length
      · rw [rebuildWith_big_prot _ _ _ hgt, hmerge, hflat]
      · have heq : (protTokens (c :: cs)).length = (stdTokens (c :: cs)).length := by omega
        rw [hprot] at heq
        rw [hprot, rebuildWith_eq_cons (c :: cs) (c :: take) (protTokens rest)
          (stdTokens (c :: cs)) heq]
        have hpre : (c :: take).isPrefixOf (c :: cs) = true := by
          refine List.isPrefixOf_iff_prefix.mpr ⟨rest, ?_⟩
          simp [hsplit]
        rw [hpre, if_pos rfl, ← hprot, hmerge, hflat]
    · obtain ⟨hl1, hl2⟩ := (runs_length (c :: cs)).2 (by rw [hhead]; simp [hctrl])
      have hmerge := (merge_runs (c :: cs)).2 (by rw [hhead]; simp [hctrl])
      have hstd : stdTokens (c :: cs) = (c :: take) :: stdTokens rest := by
        unfold stdTokens
        rw [hrun, List.filter_cons_of_pos (by rw [show runIsCtrl (c :: take) = isCtrl c from rfl]; simp [hctrl])]
      by_cases hgt : (protTokens (c :: cs)).length < (stdTokens (c :: cs)).length
      · rw [rebuildWith_big_std _ _ _ hgt, hmerge, hflat]
      · have heq : (protTokens (c :: cs)).length = (stdTokens (c :: cs)).length := by omega
        rcases hpt : protTokens (c :: cs) with _ | ⟨p0, pts⟩
        · rw [hpt] at heq
          rw [hstd] at heq
          simp at heq
        · have hmem : p0 ∈ protTokens (c :: cs) := by
            rw [hpt]
            exact List.mem_cons_self p0 pts
          have hmem' := List.mem_filter.mp hmem
          have hp0ne : p0 ≠ [] := runsOf_mem_ne_nil (c :: cs) p0 hmem'.1
          rcases hq : p0 with _ | ⟨d0, p0'⟩
          · exact absurd hq hp0ne
          · have hd0 : isCtrl d0 = true := by
              have hx := hmem'.2
              rw [hq] at hx
              exact hx
            have hne : d0 ≠ c := by
              intro hh
              rw [hh] at hd0
              exact hctrl hd0
            have hpre : p0.isPrefixOf (c :: cs) = false := by
              rw [hq]
              simp [List.isPrefixOf, hne]
            rw [hpt] at heq
            rw [hq] at heq hpre
            rw [rebuildWith_eq_cons (c :: cs) (d0 :: p0') pts (stdTokens (c :: cs)) heq, hpre,
              if_neg (by simp), ← hq, ← hpt, hmerge, hflat]

/-- C4 witness: a concrete mixed line. -/
theorem c4_rebuild_lossless_witness :
    rebuildLine ('a' :: '\t' :: '\t' :: 'b' :: '\n' :: []) = .ok ('a' :: '\t' :: '\t' :: 'b' :: '\n' :: []) :=
  c4_rebuild_lossless ('a' :: '\t' :: '\t' :: 'b' :: '\n' :: []) (by simp)

/-- A list is a Boolean prefix of itself followed by anything. -/
theorem isPrefixOf_self_append (l r : List Char) : l.isPrefixOf (l ++ r) = true :=
  List.isPrefixOf_iff_prefix.mpr (List.prefix_append l r)

/-- The tokenizer on a non-empty homogeneous block followed by text of the
opposite control-ness (or nothing) peels off exactly that block. -/
theorem runsOf_homog (b : Bool) (d : List Char) (hd : d ≠ [])
    (hhom : ∀ c ∈ d, isCtrl c = b) (r : List Char)
    (hr : ∀ c cs, r = c :: cs → isCtrl c = !b) :
    runsOf (d ++ r) = d :: runsOf r := by
  rcases d with _ | ⟨c, d'⟩
  · exact absurd rfl hd
  · have hc : isCtrl c = b := hhom c (by simp)
    rw [show (c :: d') ++ r = c :: (d' ++ r) from rfl, runsOf_cons]
    have hall : ∀ x ∈ d', (isCtrl x == isCtrl c) = true := by
      intro x hx
      simp [hhom x (by simp [hx]), hc]
    have hrtw : r.takeWhile (fun y => isCtrl y == isCtrl c) = [] := by
      rcases hrr : r with _ | ⟨c0, cs0⟩
      · rfl
      · rw [List.takeWhile_cons, if_neg (by simp [hr c0 cs0 hrr, hc])]
    have hrdw : r.dropWhile (fun y => isCtrl y == isCtrl c) = r := by
      rcases hrr : r with _ | ⟨c0, cs0⟩
      · rfl
      · rw [List.dropWhile_cons, if_neg (by simp [hr c0 cs0 hrr, hc])]
    rw [takeWhile_append_all d' r hall, dropWhile_append_all d' r hall, hrtw, hrdw,
      List.append_nil]

/-- The boundary walk of `prefix_suffix_from_parts` on a token of the shape
`pre ++ old ++ suf` with fragment list `[pre, suf]`: the front walk consumes
`pre`, the back walk consumes `suf`, and the date text `old` stays behind.
The hypothesis rules out the degenerate case where `suf` also starts the
remaining source. -/
theorem prefixSuffix_two_parts (pre old suf : List Char)
    (hpre : pre ≠ []) (hsuf : suf ≠ [])
    (hnp : suf.isPrefixOf (old ++ suf) = false) :
    prefixSuffixFromParts (pre ++ old ++ suf) [pre, suf] = (pre, suf) := by
  have hfilter : [pre, suf].filter (fun s => s ≠ []) = [pre, suf] := by
    rw [List.filter_cons_of_pos (by simp [hpre]), List.filter_cons_of_pos (by simp [hsuf])]
    rfl
  have hfront : psFront (pre ++ old ++ suf) [pre, suf] [] = (pre, [suf], old ++ suf) := by
    unfold psFront
    rw [if_pos (by rw [List.append_assoc]; exact isPrefixOf_self_append pre (old ++ suf))]
    rw [show (pre ++ old ++ suf).drop pre.length = old ++ suf from by
      rw [List.append_assoc, List.drop_left]]
    unfold psFront
    rw [hnp]
    simp
  have hend : endsWithL suf (old ++ suf) = true := by
    unfold endsWithL
    rw [List.reverse_append]
    exact isPrefixOf_self_append suf.reverse old.reverse
  have hback : psBack (old ++ suf) [suf] [] = suf := by
    unfold psBack
    rw [hend]
    simp only [if_pos rfl]
    unfold psBack
    simp
  unfold prefixSuffixFromParts
  rw [hfilter]
  simp only [hfront]
  simp only [List.reverse_cons, List.reverse_nil, List.nil_append]
  rw [hback]

/-- `inject_date` performs at most one substitution: a successful pass
replaces exactly one content run (at the position of the first token the
recognizer accepts) and leaves every other run untouched. -/
theorem injectDateGo_set (pd : List Char → Option (List (List Char)))
    (date : List Char) :
    ∀ (toks out : List (List Char)), injectDateGo pd date toks = .ok out →
      ∃ i newTok, i < toks.length ∧ out = toks.set i newTok
  | [], out, h => by simp [injectDateGo] at h
  | tok :: rest, out, h => by
    unfold injectDateGo at h
    rcases htr : trimToken tok with ⟨core, lead, trail⟩
    rw [htr] at h
    simp only at h
    rcases hpd : pd core with _ | parts <;> rw [hpd] at h
    · rcases hrec : injectDateGo pd date rest with e | rest' <;> rw [hrec] at h
      · exact absurd h (by simp)
      · simp only [Except.ok.injEq] at h
        obtain ⟨i, newTok, hi, hout⟩ := injectDateGo_set pd date rest rest' hrec
        exact ⟨i + 1, newTok, by simpa using hi, by rw [← h, hout]; rfl⟩
    · simp only [Except.ok.injEq] at h
      exact ⟨0, lead ++ (prefixSuffixFromParts core parts).1 ++ date
          ++ (prefixSuffixFromParts core parts).2 ++ trail, by simp, by rw [← h]; rfl⟩

/-- C3: the date substitution replaces only the date runes.  First conjunct:
on any recognized token `pre ++ old ++ suf` whose recognizer reports the
fragments `[pre, suf]`, the peel returns exactly `(pre, suf)`, so the rebuilt
token `lead ++ pre ++ date ++ suf ++ trail` preserves every non-date
character.  Second conjunct: at most one content run is ever modified per
line.  Third conjunct: the spec's literal example - the line
`Built on 2023-09-24 See link on GitHub` (with or without its trailing
newline, the newline being a protected control character restored by the
zipper merge) becomes `Built on 2024-03-15 See link on GitHub` for any
recognizer behaving as dateutil does on that token. -/
theorem c3_date_replaces_only_date :
    (∀ pre old suf : List Char, pre ≠ [] → suf ≠ [] →
      suf.isPrefixOf (old ++ suf) = false →
      prefixSuffixFromParts (pre ++ old ++ suf) [pre, suf] = (pre, suf))
    ∧ (∀ (pd : List Char → Option (List (List Char))) (date : List Char)
        (toks out : List (List Char)), injectDateGo pd date toks = .ok out →
        ∃ i newTok, i < toks.length ∧ out = toks.set i newTok)
    ∧ (∀ pd : List Char → Option (List (List Char)),
      pd "Built on 2023-09-24 See link on GitHub".data
          = some ["Built on ".data, " See link on GitHub".data] →
      dateSubstitute pd "2024-03-15".data "Built on 2023-09-24 See link on GitHub".data
          = .ok "Built on 2024-03-15 See link on GitHub".data
      ∧ dateSubstitute pd "2024-03-15".data
            ("Built on 2023-09-24 See link on GitHub".data ++ ['\n'])
          = .ok ("Built on 2024-03-15 See link on GitHub".data ++ ['\n'])) := by
  refine ⟨prefixSuffix_two_parts, injectDateGo_set, ?_⟩
  intro pd hpd
  have hrunsA : runsOf "Built on 2023-09-24 See link on GitHub".data
      = ["Built on 2023-09-24 See link on GitHub".data] := by
    have h := runsOf_homog false "Built on 2023-09-24 See link on GitHub".data
      (by decide) (by decide) [] (by intro c cs hcc; simp at hcc)
    rw [List.append_nil] at h
    rw [show runsOf ([] : List Char) = [] from by rw [runsOf]] at h
    exact h
  have hrunsNl : runsOf ['\n'] = [['\n']] := by
    have h := runsOf_homog true ['\n'] (by decide) (by decide) []
      (by intro c cs hcc; simp at hcc)
    rw [List.append_nil] at h
    rw [show runsOf ([] : List Char) = [] from by rw [runsOf]] at h
    exact h
  have hrunsB : runsOf ("Built on 2023-09-24 See link on GitHub".data ++ ['\n'])
      = ["Built on 2023-09-24 See link on GitHub".data, ['\n']] := by
    rw [runsOf_homog false "Built on 2023-09-24 See link on GitHub".data
      (by decide) (by decide) ['\n'] (by intro c cs hcc; injection hcc with h1 _; rw [← h1]; decide),
      hrunsNl]
  have hA : runIsCtrl "Built on 2023-09-24 See link on GitHub".data = false := by decide
  have hinj : injectDateGo pd "2024-03-15".data
      ["Built on 2023-09-24 See link on GitHub".data]
      = .ok ["Built on 2024-03-15 See link on GitHub".data] := by
    unfold injectDateGo
    rw [show trimToken "Built on 2023-09-24 See link on GitHub".data
      = ("Built on 2023-09-24 See link on GitHub".data, [], []) from by decide]
    simp only
    rw [hpd]
    simp only
    rw [show prefixSuffixFromParts "Built on 2023-09-24 See link on GitHub".data
        ["Built on ".data, " See link on GitHub".data]
      = ("Built on ".data, " See link on GitHub".data) from by decide]
    rfl
  constructor
  · unfold dateSubstitute
    rw [show stdTokens "Built on 2023-09-24 See link on GitHub".data
      = ["Built on 2023-09-24 See link on GitHub".data] from by
        rw [stdTokens, hrunsA]; simp [hA]]
    rw [hinj]
    rw [show protTokens "Built on 2023-09-24 See link on GitHub".data = [] from by
      rw [protTokens, hrunsA]; simp [hA]]
    rfl
  · unfold dateSubstitute
    rw [show stdTokens ("Built on 2023-09-24 See link on GitHub".data ++ ['\n'])
      = ["Built on 2023-09-24 See link on GitHub".data] from by
        rw [stdTokens, hrunsB]; simp [hA]; decide]
    rw [hinj]
    rw [show protTokens ("Built on 2023-09-24 See link on GitHub".data ++ ['\n'])
      = [['\n']] from by
        rw [protTokens, hrunsB]; simp [hA]; decide]
    rfl

/-- C3 witness: a recognizer that reports dateutil's fragments on the example
token makes the example line rewrite as specified, and the generic conjuncts
instantiate at concrete values. -/
theorem c3_date_replaces_only_date_witness :
    prefixSuffixFromParts ("ab".data ++ "2024".data ++ "cd".data) ["ab".data, "cd".data]
        = ("ab".data, "cd".data)
    ∧ dateSubstitute
        (fun c => if c = "Built on 2023-09-24 See link on GitHub".data
          then some ["Built on ".data, " See link on GitHub".data] else none)
        "2024-03-15".data "Built on 2023-09-24 See link on GitHub".data
        = .ok "Built on 2024-03-15 See link on GitHub".data :=
  ⟨c3_date_replaces_only_date.1 "ab".data "2024".data "cd".data (by decide) (by decide)
      (by decide),
   (c3_date_replaces_only_date.2.2
      (fun c => if c = "Built on 2023-09-24 See link on GitHub".data
        then some ["Built on ".data, " See link on GitHub".data] else none)
      (by simp)).1⟩

end Deploy
